import Mathlib

/-
  Verification development for the liekoDB-core storage/query engine
  (src/index.js).  The JS code is shallowly embedded: records are ordered
  association lists of dynamically typed JSON values, the filter evaluator
  `matchFilter` (src/index.js:1840-1855), the read pipeline
  `getCollectionRecords` (1049-1111), the search stage `searchRecords`
  (1304-1357), the batch processors (1465-1742), the field
  increment/decrement operations (1744-1836) and the collection registry
  (`ensureCollection` / `registerCollection` / `deleteCollection`,
  310-386 and 1174-1199) are translated into executable Lean functions.
  JSON numbers are embedded as integers (every value the claims exercise is
  integral); the host regular-expression engine is passed in as an explicit
  Boolean-valued test function.
-/

namespace LiekoDB

/-- A dynamically typed JSON value as stored by the engine: null, boolean,
number, string, array or object.  Objects are ordered association lists with
pairwise distinct keys, mirroring JS object insertion order. -/
inductive Value where
  | vnull : Value
  | vbool : Bool → Value
  | vnum  : Int → Value
  | vstr  : String → Value
  | varr  : List Value → Value
  | vobj  : List (String × Value) → Value

open Value

mutual

/-- Decidable equality on `Value` (needed to evaluate concrete
counterexamples); recurses through arrays and objects. -/
def Value.decEqV : (a b : Value) → Decidable (a = b)
  | vnull, vnull => isTrue rfl
  | vbool x, vbool y =>
    match decEq x y with
    | isTrue h => isTrue (by rw [h])
    | isFalse h => isFalse (fun hc => by cases hc; exact h rfl)
  | vnum x, vnum y =>
    match decEq x y with
    | isTrue h => isTrue (by rw [h])
    | isFalse h => isFalse (fun hc => by cases hc; exact h rfl)
  | vstr x, vstr y =>
    match decEq x y with
    | isTrue h => isTrue (by rw [h])
    | isFalse h => isFalse (fun hc => by cases hc; exact h rfl)
  | varr x, varr y =>
    match Value.decEqVL x y with
    | isTrue h => isTrue (by rw [h])
    | isFalse h => isFalse (fun hc => by cases hc; exact h rfl)
  | vobj x, vobj y =>
    match Value.decEqVF x y with
    | isTrue h => isTrue (by rw [h])
    | isFalse h => isFalse (fun hc => by cases hc; exact h rfl)
  | vnull, vbool _ | vnull, vnum _ | vnull, vstr _ | vnull, varr _ | vnull, vobj _
  | vbool _, vnull | vbool _, vnum _ | vbool _, vstr _ | vbool _, varr _ | vbool _, vobj _
  | vnum _, vnull | vnum _, vbool _ | vnum _, vstr _ | vnum _, varr _ | vnum _, vobj _
  | vstr _, vnull | vstr _, vbool _ | vstr _, vnum _ | vstr _, varr _ | vstr _, vobj _
  | varr _, vnull | varr _, vbool _ | varr _, vnum _ | varr _, vstr _ | varr _, vobj _
  | vobj _, vnull | vobj _, vbool _ | vobj _, vnum _ | vobj _, vstr _ | vobj _, varr _ =>
    isFalse (fun hc => by cases hc)

/-- Decidable equality on lists of values. -/
def Value.decEqVL : (a b : List Value) → Decidable (a = b)
  | [], [] => isTrue rfl
  | [], _ :: _ => isFalse (fun hc => by cases hc)
  | _ :: _, [] => isFalse (fun hc => by cases hc)
  | x :: xs, y :: ys =>
    match Value.decEqV x y, Value.decEqVL xs ys with
    | isTrue h1, isTrue h2 => isTrue (by rw [h1, h2])
    | isFalse h1, _ => isFalse (fun hc => by cases hc; exact h1 rfl)
    | _, isFalse h2 => isFalse (fun hc => by cases hc; exact h2 rfl)

/-- Decidable equality on object field lists. -/
def Value.decEqVF : (a b : List (String × Value)) → Decidable (a = b)
  | [], [] => isTrue rfl
  | [], _ :: _ => isFalse (fun hc => by cases hc)
  | _ :: _, [] => isFalse (fun hc => by cases hc)
  | (k1, x) :: xs, (k2, y) :: ys =>
    match decEq k1 k2, Value.decEqV x y, Value.decEqVF xs ys with
    | isTrue h0, isTrue h1, isTrue h2 => isTrue (by rw [h0, h1, h2])
    | isFalse h0, _, _ => isFalse (fun hc => by cases hc; exact h0 rfl)
    | _, isFalse h1, _ => isFalse (fun hc => by cases hc; exact h1 rfl)
    | _, _, isFalse h2 => isFalse (fun hc => by cases hc; exact h2 rfl)

end

instance : DecidableEq Value := Value.decEqV

/-- A stored record: a JS object, i.e. an ordered field list. -/
abbrev RecordFields := List (String × Value)

/-- A collection container: the persisted mapping from record id to record
(`Object.values` order is insertion order, as in V8 for string keys). -/
abbrev RecordMap := List (String × RecordFields)

/-- Association-list lookup, modelling JS property access `o[k]`
(`none` models `undefined`). -/
def alookup {α : Type} : List (String × α) → String → Option α
  | [], _ => none
  | (k', v) :: rest, k => if k' = k then some v else alookup rest k

/-- Association-list update, modelling JS property assignment `o[k] = v`:
an existing key keeps its position, a new key is appended. -/
def aset {α : Type} : List (String × α) → String → α → List (String × α)
  | [], k, v => [(k, v)]
  | (k', v') :: rest, k, v =>
    if k' = k then (k, v) :: rest else (k', v') :: aset rest k v

/-- JS truthiness of a value (`undefined` is handled by `Option` at call
sites; `NaN` does not arise because numbers are embedded as integers). -/
def jsTruthy : Value → Bool
  | vnull => false
  | vbool b => b
  | vnum n => n != 0
  | vstr s => s != ""
  | varr _ => true
  | vobj _ => true

/-- `typeof v === 'object' && v !== null`: true exactly for arrays and
objects. -/
def isObjectType : Value → Bool
  | varr _ => true
  | vobj _ => true
  | _ => false

/-- JS strict equality `===` between two defined values.  Primitives compare
structurally; arrays and objects compare by reference, and the filter and the
record are produced by separate `JSON.parse` calls, so they are never
aliased: the comparison is `false`. -/
def jsStrictEq : Value → Value → Bool
  | vnull, vnull => true
  | vbool a, vbool b => a == b
  | vnum a, vnum b => a == b
  | vstr a, vstr b => a == b
  | _, _ => false

/-- `recordValue === v` where the left side may be `undefined` (a missing
field never equals a JSON-expressible filter constant). -/
def jsStrictEqOpt (rv : Option Value) (v : Value) : Bool :=
  match rv with
  | some x => jsStrictEq x v
  | none => false

/-- JS `ToNumber` on a JSON value; `none` models `NaN`.  String parsing
covers decimal integer literals (the only numeric strings the engine's data
exercises); objects and arrays are mapped to `NaN` as an acknowledged
approximation of `ToPrimitive`. -/
def toNumberV : Value → Option Int
  | vnull => some 0
  | vbool b => some (if b then 1 else 0)
  | vnum n => some n
  | vstr s => if s = "" then some 0 else s.toInt?
  | varr _ => none
  | vobj _ => none

/-- JS abstract relational comparison `a < b` on possibly-undefined
operands: `some r` when the operands are comparable (both strings, or both
numeric after coercion), `none` when `NaN` is involved (any comparison is
then false). -/
def jsOrder : Option Value → Option Value → Option Bool
  | some (vstr x), some (vstr y) => some (decide (x < y))
  | a, b =>
    match a.bind toNumberV, b.bind toNumberV with
    | some m, some n => some (decide (m < n))
    | _, _ => none

/-- JS `a < b`. -/
def jsLtB (a b : Option Value) : Bool := (jsOrder a b).getD false

/-- JS `a > b`. -/
def jsGtB (a b : Option Value) : Bool := (jsOrder b a).getD false

/-- JS `a >= b` (false when `NaN` is involved, else the negation of `<`). -/
def jsGeB (a b : Option Value) : Bool :=
  match jsOrder a b with
  | some r => !r
  | none => false

/-- JS `a <= b`. -/
def jsLeB (a b : Option Value) : Bool :=
  match jsOrder b a with
  | some r => !r
  | none => false

/-- JS `String(v)` coercion as used by `RegExp.test`.  Array elements are
joined with commas; a plain object stringifies to the usual placeholder. -/
def toStringJS : Value → String
  | vnull => "null"
  | vbool b => cond b "true" "false"
  | vnum n => toString n
  | vstr s => s
  | varr l => String.intercalate "," (l.attach.map (fun e => toStringJS e.1))
  | vobj _ => "[object Object]"
termination_by v => sizeOf v
decreasing_by
  simp_wf
  have h := List.sizeOf_lt_of_mem e.2
  omega

/-- `String(recordValue)` where a missing field stringifies to
"undefined" (as JS does inside `RegExp.test`). -/
def toStringJSOpt : Option Value → String
  | none => "undefined"
  | some v => toStringJS v

/-- One JS property access `v[k]` during dot-path traversal: object fields
by name, array elements by numeric index; property access on primitives
(string indexing, `.length`) is not exercised by the engine and yields
`undefined`. -/
def indexJS : Value → String → Option Value
  | vobj fields, k => alookup fields k
  | varr l, k =>
    match k.toNat? with
    | some i => l.get? i
    | none => none
  | _, _ => none

/-- One step of `key.split('.').reduce((obj, k) => obj && obj[k], record)`:
`undefined` propagates, a falsy intermediate value is returned as is (the
`&&` short-circuit), a truthy one is indexed. -/
def pathStep (acc : Option Value) (k : String) : Option Value :=
  match acc with
  | none => none
  | some v => if jsTruthy v then indexJS v k else some v

/-- Split a character list at every occurrence of a separator, keeping empty
segments, as JS `String.prototype.split` does. -/
def splitChars (sep : Char) : List Char → List (List Char)
  | [] => [[]]
  | c :: rest =>
    let r := splitChars sep rest
    if c = sep then [] :: r
    else
      match r with
      | h :: t => (c :: h) :: t
      | [] => [[c]]

/-- `key.split('.')` as a list of strings. -/
def splitDots (key : String) : List String :=
  (splitChars '.' key.data).map (fun l => String.mk l)

/-- `key.includes('.')`. -/
def hasDot (key : String) : Bool :=
  key.data.any (fun c => c == '.')

/-- Fetch the record value for a filter key (src/index.js:1842): dot-notation
keys traverse nested values, plain keys are a direct property read. -/
def getPathValue (record : RecordFields) (key : String) : Option Value :=
  if hasDot key then (splitDots key).foldl pathStep (some (vobj record))
  else alookup record key

/-- `value.$op` inside the evaluator: property access on the sub-filter
value, which is an object or (for `$and` / `$or` style payloads) an array;
arrays carry none of the operator properties. -/
def condProp : Value → String → Option Value
  | vobj fields, k => alookup fields k
  | _, _ => none

/-- The operator branch of `matchFilter` (src/index.js:1844-1851): the first
recognized operator property in source order `$eq`, `$gt`, `$gte`, `$lt`,
`$lte`, `$in`, `$regex` decides the condition; anything else yields false.
`rtest pat s` is the host `new RegExp(pat).test(s)`. -/
def applyOps (rtest : String → String → Bool) (rv : Option Value) (cond : Value) : Bool :=
  match condProp cond "$eq" with
  | some e => jsStrictEqOpt rv e
  | none =>
  match condProp cond "$gt" with
  | some g => jsGtB rv (some g)
  | none =>
  match condProp cond "$gte" with
  | some g => jsGeB rv (some g)
  | none =>
  match condProp cond "$lt" with
  | some l => jsLtB rv (some l)
  | none =>
  match condProp cond "$lte" with
  | some l => jsLeB rv (some l)
  | none =>
  match condProp cond "$in" with
  | some i =>
    (match i with
     | varr elems => elems.any (fun e => jsStrictEqOpt rv e)
     | _ => false)
  | none =>
  match condProp cond "$regex" with
  | some rx => rtest (toStringJS rx) (toStringJSOpt rv)
  | none => false

/-- The filter evaluator `matchFilter` (src/index.js:1840-1855): every
top-level filter entry must hold; an object- or array-valued entry goes
through the operator branch, a primitive entry is a strict-equality test. -/
def matchFilter (rtest : String → String → Bool) (record : RecordFields)
    (filter : List (String × Value)) : Bool :=
  filter.all fun kv =>
    let rv := getPathValue record kv.1
    if isObjectType kv.2 then applyOps rtest rv kv.2 else jsStrictEqOpt rv kv.2

/-- `s.split(',')` as a list of strings. -/
def splitCommas (s : String) : List String :=
  (splitChars ',' s.data).map (fun l => String.mk l)

/-- `s.split(':')` as a list of strings. -/
def splitColon (s : String) : List String :=
  (splitChars ':' s.data).map (fun l => String.mk l)

/-- `s.toLowerCase()`; character-wise lowering is faithful for the ASCII
data the engine stores. -/
def lowerStr (s : String) : String := String.mk (s.data.map Char.toLower)

/-- Whether the first list is a prefix of the second (Boolean, by character
comparison). -/
def startsWithChars : List Char → List Char → Bool
  | [], _ => true
  | _ :: _, [] => false
  | a :: as, b :: bs => a == b && startsWithChars as bs

/-- Whether `needle` occurs contiguously inside the second list. -/
def containsChars (needle : List Char) : List Char → Bool
  | [] => needle.isEmpty
  | c :: rest => startsWithChars needle (c :: rest) || containsChars needle rest

/-- JS `hay.includes(needle)` on strings. -/
def strIncludes (hay needle : String) : Bool := containsChars needle.data hay.data

/-- The filter stage of the read pipeline (src/index.js:1057-1064): when a
filter is supplied, keep the records `matchFilter` accepts. -/
def filterStage (rtest : String → String → Bool)
    (qfilter : Option (List (String × Value))) (records : List RecordFields) :
    List RecordFields :=
  match qfilter with
  | none => records
  | some f => records.filter (fun r => matchFilter rtest r f)

/-- Field projection of one record (src/index.js:1068-1076): the requested
fields, in request order, restricted to those present on the record. -/
def projectFields (fields : List String) (record : RecordFields) : RecordFields :=
  fields.foldl
    (fun acc f =>
      match alookup record f with
      | some v => aset acc f v
      | none => acc)
    []

/-- The projection stage (src/index.js:1066-1077): `fields` is a
comma-separated list. -/
def projectStage (qfields : Option String) (records : List RecordFields) :
    List RecordFields :=
  match qfields with
  | none => records
  | some s => records.map (projectFields (splitCommas s))

/-- The sort comparator (src/index.js:1081-1086): natural order on the named
field, negated for `desc`; incomparable values give 0 (a tie). -/
def recordCompare (field : String) (ord : Option String) (a b : RecordFields) : Int :=
  let aVal := alookup a field
  let bVal := alookup b field
  let result : Int := if jsLtB aVal bVal then -1 else if jsGtB aVal bVal then 1 else 0
  if ord = some "desc" then -result else result

/-- Insert an element into a sorted prefix, after every element it does not
strictly precede (so later input elements land after equal earlier ones). -/
def insertCmp {α : Type} (cmp : α → α → Int) (x : α) : List α → List α
  | [] => [x]
  | y :: ys => if cmp x y < 0 then x :: y :: ys else y :: insertCmp cmp x ys

/-- Stable comparator sort, modelling the ES2019-stable `Array.prototype.sort`
for consistent comparators. -/
def sortCmp {α : Type} (cmp : α → α → Int) (l : List α) : List α :=
  l.foldl (fun acc x => insertCmp cmp x acc) []

/-- The sort stage (src/index.js:1079-1087): `sort` is `field:direction`. -/
def sortStage (qsort : Option String) (records : List RecordFields) :
    List RecordFields :=
  match qsort with
  | none => records
  | some s =>
    let parts := splitColon s
    let field := parts.headD ""
    let ord := parts.get? 1
    sortCmp (recordCompare field ord) records

/-- The offset/limit slice (src/index.js:1089-1095): missing or zero
`limit` falls back to the full length, missing offset to 0. -/
def paginate (off lim : Option Nat) (records : List RecordFields) :
    List RecordFields :=
  let offset := off.getD 0
  let limit :=
    match lim with
    | none => records.length
    | some 0 => records.length
    | some n => n
  (records.drop offset).take limit

/-- The records returned by `getCollectionRecords` (src/index.js:1049-1102),
stage by stage in source order: filter, then field projection, then sort,
then the offset/limit slice. -/
def getCollectionRecords (rtest : String → String → Bool) (data : RecordMap)
    (qfilter : Option (List (String × Value))) (qfields qsort : Option String)
    (off lim : Option Nat) : List RecordFields :=
  let records := data.map Prod.snd
  let records := filterStage rtest qfilter records
  let records := projectStage qfields records
  let records := sortStage qsort records
  paginate off lim records

/-- The pipeline in the order the spec's words claim (refinement comparison
definition, following the spec, not the source): filter, then sort, then the
offset/limit slice, then field projection applied last to the sliced page. -/
def specOrderPipeline (rtest : String → String → Bool) (data : RecordMap)
    (qfilter : Option (List (String × Value))) (qfields qsort : Option String)
    (off lim : Option Nat) : List RecordFields :=
  projectStage qfields
    (paginate off lim (sortStage qsort (filterStage rtest qfilter (data.map Prod.snd))))

/-- The matching stage of `searchRecords` (src/index.js:1314-1322): with no
field restriction the searched fields are the keys of the FIRST record
(`Object.keys(records[0] || {})`); a record field matches when it is a
non-empty string whose lowercase form contains the lowercase term. -/
def searchStage (data : RecordMap) (term : String) (fieldsParam : Option String) :
    List RecordFields :=
  let records := data.map Prod.snd
  let searchFields :=
    match fieldsParam with
    | some f => splitCommas f
    | none => (records.headD []).map Prod.fst
  let searchTerm := lowerStr term
  records.filter fun record =>
    searchFields.any fun field =>
      match alookup record field with
      | some (vstr s) => jsTruthy (vstr s) && strIncludes (lowerStr s) searchTerm
      | _ => false

/-- The machine-readable error codes of the core (the `ERROR_CODES` table,
src/index.js:17-42, restricted to the codes the embedded operations emit). -/
inductive ErrCode where
  | invalidRequestBody
  | invalidIdFormat
  | recordExists
  | recordNotFound
  | invalidField
  | missingRequiredFields
  | collectionNotFound
  | collectionCreationFailed
  | projectNotFound
  | fileSystemError
deriving DecidableEq

/-- A per-item success entry of a batch response. -/
structure BatchSuccess where
  id : String
  record : RecordFields
deriving DecidableEq

/-- A per-item error entry of a batch response (the offending id as the
code reports it, possibly `null`). -/
structure BatchErr where
  id : Option Value
  code : ErrCode
deriving DecidableEq

/-- `isValidId` on a string (src/index.js:66-68): nonempty and matching
`^[a-zA-Z0-9_-]+$`. -/
def validIdStr (s : String) : Bool :=
  s != "" && s.data.all (fun c => c.isAlphanum || c == '_' || c == '-')

/-- `isValidId`: `typeof id === 'string'` and the charset test. -/
def isValidId : Value → Bool
  | vstr s => validIdStr s
  | _ => false

/-- The string carried by a valid id value. -/
def idStringOf : Value → String
  | vstr s => s
  | _ => ""

/-- `record?.id`: property access on an object, `undefined` otherwise. -/
def recIdOf : Value → Option Value
  | vobj f => alookup f "id"
  | _ => none

/-- JS object spread `{...v}` as a field list: objects keep their fields,
arrays spread to index keys, primitives contribute nothing. -/
def spreadToFields : Value → Option RecordFields
  | vobj f => some f
  | varr l => some (l.enum.map (fun p => (toString p.1, p.2)))
  | _ => none

/-- `{...record, createdAt: now, updatedAt: now}` (src/index.js:1491-1495). -/
def stampNew (now : String) (fields : RecordFields) : RecordFields :=
  aset (aset fields "createdAt" (vstr now)) "updatedAt" (vstr now)

/-- `if (!newRecord.id) newRecord.id = uuidv4()` (src/index.js:1497-1499),
with the uuid generator passed in as `genId` applied to the item index. -/
def withId (genId : Nat → String) (i : Nat) (r : RecordFields) : RecordFields :=
  match alookup r "id" with
  | some idv => if jsTruthy idv then r else aset r "id" (vstr (genId i))
  | none => aset r "id" (vstr (genId i))

/-- Accumulated state of a batch-set loop: the evolving record map and the
response lists. -/
structure BatchAcc where
  data : RecordMap
  results : List BatchSuccess
  errors : List BatchErr
deriving DecidableEq

/-- One iteration of the `batchSet` loop (src/index.js:1480-1527): malformed
item, invalid id, id conflict against the evolving map, or insertion. -/
def batchSetStep (now : String) (genId : Nat → String) (i : Nat)
    (acc : BatchAcc) (record : Value) : BatchAcc :=
  if !(jsTruthy record && isObjectType record) then
    { acc with errors := acc.errors ++ [⟨recIdOf record, ErrCode.invalidRequestBody⟩] }
  else
    let newRecord := withId genId i (stampNew now ((spreadToFields record).getD []))
    let idv := (alookup newRecord "id").getD vnull
    if !(isValidId idv) then
      { acc with errors := acc.errors ++ [⟨some idv, ErrCode.invalidIdFormat⟩] }
    else
      let ids := idStringOf idv
      match alookup acc.data ids with
      | some _ => { acc with errors := acc.errors ++ [⟨some idv, ErrCode.recordExists⟩] }
      | none =>
        { data := aset acc.data ids newRecord,
          results := acc.results ++ [⟨ids, newRecord⟩],
          errors := acc.errors }

/-- The `batchSet` item loop, threading the running item index for uuid
generation. -/
def batchSetLoop (now : String) (genId : Nat → String) :
    Nat → BatchAcc → List Value → BatchAcc
  | _, acc, [] => acc
  | i, acc, r :: rest => batchSetLoop now genId (i + 1) (batchSetStep now genId i acc r) rest

/-- The full response of a `batchSet` call with its storage effect. -/
structure BatchSetOutcome where
  results : List BatchSuccess
  errors : List BatchErr
  total : Nat
  writes : List RecordMap
deriving DecidableEq

/-- `batchSet` (src/index.js:1465-1544) over an already-loaded map: run the
loop over every item and persist the final map with a single write at the end
(src/index.js:1529).  The surrounding transport rejects an empty or
non-array `records` payload before this loop is reached. -/
def batchSet (now : String) (genId : Nat → String) (data0 : RecordMap)
    (records : List Value) : BatchSetOutcome :=
  let acc := batchSetLoop now genId 0 ⟨data0, [], []⟩ records
  { results := acc.results, errors := acc.errors,
    total := records.length, writes := [acc.data] }

/-- Whether a batch-set item is a well-formed record already carrying a
valid id. -/
def wellFormedWithId : Value → Bool
  | vobj f =>
    match alookup f "id" with
    | some (vstr s) => validIdStr s
    | _ => false
  | _ => false

/-- The id string of a well-formed batch-set item. -/
def idStrOfRecord : Value → String
  | vobj f =>
    match alookup f "id" with
    | some (vstr s) => s
    | _ => ""
  | _ => ""

/-- Whether a record has a numeric value at the named top-level field. -/
def isNumField (rec : RecordFields) (field : String) : Bool :=
  match alookup rec field with
  | some (vnum _) => true
  | _ => false

/-- `incrementRecordField` (src/index.js:1744-1789) over an already-loaded
map: requires the record to exist and the named top-level field to already
hold a number; on success adds the delta, stamps `updatedAt` and stores the
record; on any error the map is left untouched (the source throws before its
`writeJsonFile`). -/
def incrementRecordField (now : String) (data : RecordMap) (id field : String)
    (value : Int) : Except ErrCode RecordFields × RecordMap :=
  if field = "" then (.error .missingRequiredFields, data)
  else
    match alookup data id with
    | none => (.error .recordNotFound, data)
    | some rec =>
      match alookup rec field with
      | some (vnum n) =>
        let rec' := aset (aset rec field (vnum (n + value))) "updatedAt" (vstr now)
        (.ok rec', aset data id rec')
      | _ => (.error .invalidField, data)

/-- `decrementRecordField` (src/index.js:1791-1836): identical to increment
with the delta subtracted. -/
def decrementRecordField (now : String) (data : RecordMap) (id field : String)
    (value : Int) : Except ErrCode RecordFields × RecordMap :=
  if field = "" then (.error .missingRequiredFields, data)
  else
    match alookup data id with
    | none => (.error .recordNotFound, data)
    | some rec =>
      match alookup rec field with
      | some (vnum n) =>
        let rec' := aset (aset rec field (vnum (n - value))) "updatedAt" (vstr now)
        (.ok rec', aset data id rec')
      | _ => (.error .invalidField, data)

/-- The merged record a `batchUpdate` item produces
(src/index.js:1711-1717): `{...old, ...patch, id, updatedAt: now,
createdAt: old.createdAt || now}` — later literal keys overwrite, an
overwritten key keeps its original position. -/
def mergedRecordOf (now : String) (ids : String) (old patch : RecordFields) :
    RecordFields :=
  let m := patch.foldl (fun acc kv => aset acc kv.1 kv.2) old
  let m := aset m "id" (vstr ids)
  let m := aset m "updatedAt" (vstr now)
  let createdAt :=
    match alookup old "createdAt" with
    | some c => if jsTruthy c then c else vstr now
    | none => vstr now
  aset m "createdAt" createdAt

/-- One iteration of the `batchUpdate` loop (src/index.js:1679-1725):
id-format check, existence check, patch-shape check, then the merge.  The
item's patch travels under the wire key `data`.  (Destructuring a
non-object item, which would throw in JS, is modelled as the id check
failing on `undefined`.) -/
def batchUpdateStep (now : String) (data : RecordMap) (update : Value) :
    RecordMap × Option BatchSuccess × Option BatchErr :=
  let idv := match update with | vobj f => alookup f "id" | _ => none
  let updv := match update with | vobj f => alookup f "data" | _ => none
  if !(isValidId (idv.getD vnull)) then
    (data, none, some ⟨idv, ErrCode.invalidIdFormat⟩)
  else
    let ids := idStringOf (idv.getD vnull)
    match alookup data ids with
    | none => (data, none, some ⟨idv, ErrCode.recordNotFound⟩)
    | some old =>
      match updv with
      | some u =>
        if jsTruthy u && isObjectType u then
          let merged := mergedRecordOf now ids old ((spreadToFields u).getD [])
          (aset data ids merged, some ⟨ids, merged⟩, none)
        else (data, none, some ⟨idv, ErrCode.invalidRequestBody⟩)
      | none => (data, none, some ⟨idv, ErrCode.invalidRequestBody⟩)

/-- The full `batchUpdate` loop (src/index.js:1664-1742) over an
already-loaded map, collecting per-item outcomes in input order. -/
def batchUpdate (now : String) (data0 : RecordMap) (updates : List Value) :
    RecordMap × List BatchSuccess × List BatchErr :=
  updates.foldl
    (fun st u =>
      let r := batchUpdateStep now st.1 u
      (r.1, st.2.1 ++ r.2.1.toList, st.2.2 ++ r.2.2.toList))
    (data0, [], [])

/-- Refinement comparison definition following the spec's words for a
`batchUpdate` item: shallow-merge the patch into the existing record at the
top level with every patch key overwriting, stamp `updatedAt`, preserve
the original `createdAt`. -/
def specShallowMerge (now : String) (old patch : RecordFields) : RecordFields :=
  let m := patch.foldl (fun acc kv => aset acc kv.1 kv.2) old
  let m := aset m "updatedAt" (vstr now)
  aset m "createdAt" ((alookup old "createdAt").getD (vstr now))

/-- One entry of a project's persisted collection list
(`{name, createdAt, updatedAt}`, src/index.js:373-377). -/
structure CollEntry where
  name : String
  createdAt : String
  updatedAt : String
deriving DecidableEq

/-- A project record of the persisted metadata store (`manageDB.json`),
restricted to the parts the collection registry reads and writes. -/
structure ProjectMeta where
  id : String
  collections : List CollEntry
  updatedAt : String
deriving DecidableEq

/-- The state the registry operations touch, for one project directory:
the per-collection containers on disk, the in-memory collection cache for
the project, and the metadata store's project list. -/
structure DBState where
  files : List (String × RecordMap)
  cache : List String
  projects : List ProjectMeta
deriving DecidableEq

/-- `Set.prototype.add`: insert a name into the cache if absent. -/
def cacheAdd (cache : List String) (name : String) : List String :=
  if name ∈ cache then cache else cache ++ [name]

/-- `data.projects.find(p => p.id === projectId)`. -/
def findProject (projects : List ProjectMeta) (pid : String) : Option ProjectMeta :=
  projects.find? (fun p => p.id == pid)

/-- Mutate the first project with the given id in place, as the JS code does
to the object returned by `find`. -/
def updateProjects (pid : String) (f : ProjectMeta → ProjectMeta) :
    List ProjectMeta → List ProjectMeta
  | [] => []
  | p :: ps => if p.id == pid then f p :: ps else p :: updateProjects pid f ps

/-- `registerCollection` (src/index.js:355-386): look up the project in the
metadata store; missing project is an error (wrapped by the caller); a
collection entry is appended unless one with the same name already exists,
and the store is rewritten. -/
def registerCollection (now pid name : String) (st : DBState) :
    Except ErrCode Unit × DBState :=
  match findProject st.projects pid with
  | none => (.error .projectNotFound, st)
  | some p =>
    if p.collections.any (fun c => c.name == name) then (.ok (), st)
    else
      (.ok (),
       { st with
         projects :=
           (updateProjects pid
             (fun q =>
               { q with
                 collections := q.collections ++ [⟨name, now, now⟩],
                 updatedAt := now })
             st.projects) })

/-- `ensureCollection` (src/index.js:310-353): cache hit returns at once; a
container on disk is cached and registered (a registration failure leaves
the cache mutated and surfaces as `FILE_SYSTEM_ERROR`, src/index.js:350);
a missing container is created, cached and registered when `createIfMissing`
(a failure there surfaces as `COLLECTION_CREATION_FAILED`, src/index.js:343),
else the call fails with `COLLECTION_NOT_FOUND`. -/
def ensureCollection (now pid name : String) (createIfMissing : Bool)
    (st : DBState) : Except ErrCode Bool × DBState :=
  if name ∈ st.cache then (.ok true, st)
  else
    match alookup st.files name with
    | some _ =>
      let st1 := { st with cache := cacheAdd st.cache name }
      match registerCollection now pid name st1 with
      | (.ok _, st2) => (.ok true, st2)
      | (.error _, st2) => (.error .fileSystemError, st2)
    | none =>
      if createIfMissing then
        let st1 :=
          { st with
            files := aset st.files name [],
            cache := cacheAdd st.cache name }
        match registerCollection now pid name st1 with
        | (.ok _, st2) => (.ok true, st2)
        | (.error _, st2) => (.error .collectionCreationFailed, st2)
      else (.error .collectionNotFound, st)

/-- `createCollection` (src/index.js:1113-1163): validate the body shape,
ensure the collection (with creation), stamp the record, generate an id if
absent, and only then validate the id format — an invalid id aborts after
the ensure step's effects but before the record write. -/
def createCollection (now genId pid name : String) (body : Value) (st : DBState) :
    Except ErrCode (String × RecordFields) × DBState :=
  if !(jsTruthy body && isObjectType body) then (.error .invalidRequestBody, st)
  else
    match ensureCollection now pid name true st with
    | (.error e, st1) => (.error e, st1)
    | (.ok _, st1) =>
      let data := (alookup st1.files name).getD []
      let record := withId (fun _ => genId) 0 (stampNew now ((spreadToFields body).getD []))
      let idv := (alookup record "id").getD vnull
      if !(isValidId idv) then (.error .invalidIdFormat, st1)
      else
        let ids := idStringOf idv
        match alookup data ids with
        | some _ => (.error .recordExists, st1)
        | none =>
          (.ok (ids, record),
           { st1 with files := aset st1.files name (aset data ids record) })

/-- `deleteCollection` (src/index.js:1174-1199): ensure the collection, wipe
the container by writing an empty map, remove the name from the cache, then
drop the entry from the project's metadata list when the project exists. -/
def deleteCollection (now pid name : String) (st : DBState) :
    Except ErrCode Unit × DBState :=
  match ensureCollection now pid name false st with
  | (.error e, st1) => (.error e, st1)
  | (.ok _, st1) =>
    let st2 :=
      { st1 with
        files := aset st1.files name [],
        cache := st1.cache.filter (fun c => !(c == name)) }
    match findProject st2.projects pid with
    | some _ =>
      (.ok (),
       { st2 with
         projects :=
           (updateProjects pid
             (fun q =>
               { q with
                 collections :=
                   (q.collections.filter (fun c => !(c.name == name))),
                 updatedAt := now })
             st2.projects) })
    | none => (.ok (), st2)

/-- Whether the persisted metadata lists the collection under the project. -/
def metaHas (st : DBState) (pid name : String) : Bool :=
  match findProject st.projects pid with
  | some p => p.collections.any (fun c => c.name == name)
  | none => false

/-- The lockstep invariant of claim C9 for one project: a name is cached
exactly when the persisted metadata lists it. -/
def registryInv (st : DBState) (pid : String) : Prop :=
  ∀ n, n ∈ st.cache ↔ metaHas st pid n = true

/-- A concrete host regex engine for evaluating closed instances: a test
function that matches nothing (the claims below never reach the `$regex`
branch on these inputs). -/
def rtFalse : String → String → Bool := fun _ _ => false

/-- A two-record collection whose records have different field sets, used by
the pipeline and search counterexamples. -/
def cexData : RecordMap :=
  [("r1", [("id", vstr "r1"), ("a", vnum 2), ("b", vnum 1)]),
   ("r2", [("id", vstr "r2"), ("a", vnum 1), ("b", vnum 2)])]

/-- The users collection of spec Scenario B: one record has only `name`, the
other only `email`. -/
def bobData : RecordMap :=
  [("u1", [("name", vstr "Bob Smith")]),
   ("u2", [("email", vstr "bob@x.com")])]

/-- The stored record used by the `batchUpdate` counterexample and witness. -/
def c8old : RecordFields := [("id", vstr "u1"), ("a", vnum 1), ("createdAt", vstr "T0")]

/-- A consistent starting state whose metadata store does not know the
project: the collection container `c1` exists on disk, nothing is cached,
no project is registered. -/
def c9State : DBState := ⟨[("c1", [])], [], []⟩

/-- A consistent starting state with a registered project and no
collections anywhere. -/
def cleanState : DBState := ⟨[], [], [⟨"p1", [], "T0"⟩]⟩

/-- The operator keys recognized by the evaluator, in the order the source
checks them (src/index.js:1844-1850). -/
def opKeys : List String := ["$eq", "$gt", "$gte", "$lt", "$lte", "$in", "$regex"]

/-- C1 (amended): `matchFilter` has no `$and` / `$or` combinators.  A
top-level `$and` or `$or` key is treated as an ordinary field condition whose
array value falls through every recognized-operator check, so the filter
matches no record at all; conjunction is available only as the implicit AND
across distinct top-level keys, which does distribute as list concatenation. -/
theorem matchFilter_and_or_unsupported :
    (∀ (rtest : String → String → Bool) (record : RecordFields) (subs : List Value),
        matchFilter rtest record [("$and", varr subs)] = false)
  ∧ (∀ (rtest : String → String → Bool) (record : RecordFields) (subs : List Value),
        matchFilter rtest record [("$or", varr subs)] = false)
  ∧ (∀ (rtest : String → String → Bool) (record : RecordFields)
        (f1 f2 : List (String × Value)),
        matchFilter rtest record (f1 ++ f2) =
          (matchFilter rtest record f1 && matchFilter rtest record f2)) := by
  refine ⟨?_, ?_, ?_⟩
  · intro rtest record subs
    simp [matchFilter, applyOps, condProp, isObjectType]
  · intro rtest record subs
    simp [matchFilter, applyOps, condProp, isObjectType]
  · intro rtest record f1 f2
    simp [matchFilter, List.all_append]

/-- C1 (counterexample): the record `{a:1}` matches the sub-filter
`{a:1}`, yet `{$and:[{a:1},{a:1}]}` and `{$or:[{a:1},{a:1}]}` match
nothing, so `$and` is not intersection and `$or` is not union. -/
theorem matchFilter_and_or_counterexample :
    matchFilter rtFalse [("a", vnum 1)] [("a", vnum 1)] = true
  ∧ matchFilter rtFalse [("a", vnum 1)]
      [("$and", varr [vobj [("a", vnum 1)], vobj [("a", vnum 1)]])] = false
  ∧ matchFilter rtFalse [("a", vnum 1)]
      [("$or", varr [vobj [("a", vnum 1)], vobj [("a", vnum 1)]])] = false := by
  refine ⟨?_, ?_, ?_⟩ <;> decide

/-- C4 (amended): the evaluator implements exactly the operators `$eq`,
`$gt`, `$gte`, `$lt`, `$lte`, `$in` and `$regex`; `$ne`, `$nin` and
`$contains`, like any operator object carrying none of the seven recognized
keys, evaluate to false. -/
theorem matchFilter_operator_set :
    (∀ (rtest : String → String → Bool) (rv : Option Value) (v : Value),
        applyOps rtest rv (vobj [("$ne", v)]) = false)
  ∧ (∀ (rtest : String → String → Bool) (rv : Option Value) (v : Value),
        applyOps rtest rv (vobj [("$nin", v)]) = false)
  ∧ (∀ (rtest : String → String → Bool) (rv : Option Value) (v : Value),
        applyOps rtest rv (vobj [("$contains", v)]) = false)
  ∧ (∀ (rtest : String → String → Bool) (rv : Option Value) (fields : RecordFields),
        (opKeys.all fun k => (alookup fields k).isNone) = true →
        applyOps rtest rv (vobj fields) = false)
  ∧ (∀ (rtest : String → String → Bool) (rv : Option Value) (v : Value),
        applyOps rtest rv (vobj [("$eq", v)]) = jsStrictEqOpt rv v)
  ∧ (∀ (rtest : String → String → Bool) (rv : Option Value) (v : Value),
        applyOps rtest rv (vobj [("$gt", v)]) = jsGtB rv (some v))
  ∧ (∀ (rtest : String → String → Bool) (rv : Option Value) (v : Value),
        applyOps rtest rv (vobj [("$gte", v)]) = jsGeB rv (some v))
  ∧ (∀ (rtest : String → String → Bool) (rv : Option Value) (v : Value),
        applyOps rtest rv (vobj [("$lt", v)]) = jsLtB rv (some v))
  ∧ (∀ (rtest : String → String → Bool) (rv : Option Value) (v : Value),
        applyOps rtest rv (vobj [("$lte", v)]) = jsLeB rv (some v))
  ∧ (∀ (rtest : String → String → Bool) (rv : Option Value) (elems : List Value),
        applyOps rtest rv (vobj [("$in", varr elems)]) =
          elems.any (fun e => jsStrictEqOpt rv e))
  ∧ (∀ (rtest : String → String → Bool) (rv : Option Value) (rx : Value),
        applyOps rtest rv (vobj [("$regex", rx)]) =
          rtest (toStringJS rx) (toStringJSOpt rv)) := by
  refine ⟨fun rt rv v => rfl, fun rt rv v => rfl, fun rt rv v => rfl, ?_,
    fun rt rv v => rfl, fun rt rv v => rfl, fun rt rv v => rfl,
    fun rt rv v => rfl, fun rt rv v => rfl, fun rt rv el => rfl,
    fun rt rv rx => rfl⟩
  intro rtest rv fields h
  simp [opKeys, Option.isNone_iff_eq_none] at h
  obtain ⟨h1, h2, h3, h4, h5, h6, h7⟩ := h
  simp [applyOps, condProp, h1, h2, h3, h4, h5, h6, h7]

/-- Witness for `matchFilter_operator_set`: a condition object with only the
unrecognized key `$foo` evaluates to false. -/
theorem matchFilter_operator_set_witness :
    applyOps rtFalse none (vobj [("$foo", vnull)]) = false :=
  matchFilter_operator_set.2.2.2.1 rtFalse none [("$foo", vnull)] (by decide)

/-- C4 (counterexample): the record `{a:2}` differs from `1`, so a filter
`{a:{$ne:1}}` should match it if `$ne` were implemented; the evaluator
returns false because `$ne` is an unrecognized operator key. -/
theorem matchFilter_ne_counterexample :
    matchFilter rtFalse [("a", vnum 2)] [("a", vobj [("$ne", vnum 1)])] = false
  ∧ jsStrictEq (vnum 2) (vnum 1) = false := by
  exact ⟨by decide, by decide⟩

/-- C10 (confirmed): when a per-field condition object carries several
operator keys, the evaluator applies only the single highest-precedence
recognized operator in the fixed order `$eq`, `$gt`, `$gte`, `$lt`, `$lte`,
`$in`, `$regex` and ignores the remaining keys; in particular
`{$gt:18, $lte:30}` on the value 50 evaluates to true (only `$gt` applies)
although `50 <= 30` is false, so the condition is not the conjunction of its
operators. -/
theorem matchFilter_operator_precedence :
    (∀ (rtest : String → String → Bool) (rv : Option Value)
        (fields : RecordFields) (v : Value),
        alookup fields "$eq" = some v →
        applyOps rtest rv (vobj fields) = jsStrictEqOpt rv v)
  ∧ (∀ (rtest : String → String → Bool) (rv : Option Value)
        (fields : RecordFields) (v : Value),
        alookup fields "$eq" = none → alookup fields "$gt" = some v →
        applyOps rtest rv (vobj fields) = jsGtB rv (some v))
  ∧ (∀ (rtest : String → String → Bool) (rv : Option Value)
        (fields : RecordFields) (v : Value),
        alookup fields "$eq" = none → alookup fields "$gt" = none →
        alookup fields "$gte" = some v →
        applyOps rtest rv (vobj fields) = jsGeB rv (some v))
  ∧ (∀ (rtest : String → String → Bool) (rv : Option Value)
        (fields : RecordFields) (v : Value),
        alookup fields "$eq" = none → alookup fields "$gt" = none →
        alookup fields "$gte" = none → alookup fields "$lt" = some v →
        applyOps rtest rv (vobj fields) = jsLtB rv (some v))
  ∧ (∀ (rtest : String → String → Bool) (rv : Option Value)
        (fields : RecordFields) (v : Value),
        alookup fields "$eq" = none → alookup fields "$gt" = none →
        alookup fields "$gte" = none → alookup fields "$lt" = none →
        alookup fields "$lte" = some v →
        applyOps rtest rv (vobj fields) = jsLeB rv (some v))
  ∧ (∀ (rtest : String → String → Bool) (rv : Option Value)
        (fields : RecordFields) (v : Value),
        alookup fields "$eq" = none → alookup fields "$gt" = none →
        alookup fields "$gte" = none → alookup fields "$lt" = none →
        alookup fields "$lte" = none → alookup fields "$in" = some v →
        applyOps rtest rv (vobj fields) =
          (match v with
           | varr elems => elems.any (fun e => jsStrictEqOpt rv e)
           | _ => false))
  ∧ (∀ (rtest : String → String → Bool) (rv : Option Value)
        (fields : RecordFields) (v : Value),
        alookup fields "$eq" = none → alookup fields "$gt" = none →
        alookup fields "$gte" = none → alookup fields "$lt" = none →
        alookup fields "$lte" = none → alookup fields "$in" = none →
        alookup fields "$regex" = some v →
        applyOps rtest rv (vobj fields) =
          rtest (toStringJS v) (toStringJSOpt rv))
  ∧ (applyOps rtFalse (some (vnum 50)) (vobj [("$gt", vnum 18), ("$lte", vnum 30)]) = true
     ∧ jsLeB (some (vnum 50)) (some (vnum 30)) = false) := by
  refine ⟨?_, ?_, ?_, ?_, ?_, ?_, ?_, by decide, by decide⟩
  · intro rtest rv fields v h
    simp [applyOps, condProp, h]
  · intro rtest rv fields v h1 h2
    simp [applyOps, condProp, h1, h2]
  · intro rtest rv fields v h1 h2 h3
    simp [applyOps, condProp, h1, h2, h3]
  · intro rtest rv fields v h1 h2 h3 h4
    simp [applyOps, condProp, h1, h2, h3, h4]
  · intro rtest rv fields v h1 h2 h3 h4 h5
    simp [applyOps, condProp, h1, h2, h3, h4, h5]
  · intro rtest rv fields v h1 h2 h3 h4 h5 h6
    simp [applyOps, condProp, h1, h2, h3, h4, h5, h6]
  · intro rtest rv fields v h1 h2 h3 h4 h5 h6 h7
    simp [applyOps, condProp, h1, h2, h3, h4, h5, h6, h7]

/-- Witness for `matchFilter_operator_precedence`: with both `$gt` and
`$lte` present, the `$eq`-absent/`$gt`-present case fires on concrete
input. -/
theorem matchFilter_operator_precedence_witness :
    applyOps rtFalse (some (vnum 50)) (vobj [("$gt", vnum 18), ("$lte", vnum 30)]) =
      jsGtB (some (vnum 50)) (some (vnum 18)) :=
  matchFilter_operator_precedence.2.1 rtFalse (some (vnum 50))
    [("$gt", vnum 18), ("$lte", vnum 30)] (vnum 18) (by decide) (by decide)

lemma alookup_aset_self {α : Type} (l : List (String × α)) (k : String) (v : α) :
    alookup (aset l k v) k = some v := by
  induction l with
  | nil => simp [aset, alookup]
  | cons p rest ih =>
    obtain ⟨k', v'⟩ := p
    by_cases h : k' = k
    · simp [aset, h, alookup]
    · simp [aset, h, alookup, ih]

lemma alookup_aset_ne {α : Type} (l : List (String × α)) (k : String) (v : α)
    (k' : String) (h : k ≠ k') :
    alookup (aset l k v) k' = alookup l k' := by
  induction l with
  | nil => simp [aset, alookup, h]
  | cons p rest ih =>
    obtain ⟨k'', v''⟩ := p
    by_cases h2 : k'' = k
    · subst h2
      simp [aset, alookup, h]
    · simp only [aset, if_neg h2]
      by_cases h3 : k'' = k'
      · simp [alookup, h3]
      · simp [alookup, h3, ih]

lemma alookup_mem_keys {α : Type} {l : List (String × α)} {k : String} {v : α}
    (h : alookup l k = some v) : k ∈ l.map Prod.fst := by
  induction l with
  | nil => simp [alookup] at h
  | cons p rest ih =>
    obtain ⟨k', v'⟩ := p
    by_cases h2 : k' = k
    · simp [h2]
    · simp only [alookup, if_neg h2] at h
      simp [ih h]

lemma aset_new_key {α : Type} (l : List (String × α)) (k : String) (v : α)
    (h : alookup l k = none) : aset l k v = l ++ [(k, v)] := by
  induction l with
  | nil => simp [aset]
  | cons p rest ih =>
    obtain ⟨k', v'⟩ := p
    by_cases h2 : k' = k
    · simp [alookup, h2] at h
    · simp only [alookup, if_neg h2] at h
      simp [aset, h2, ih h]

lemma foldl_aset_alookup (patch : RecordFields) (old : RecordFields) (k : String)
    (hnd : (patch.map Prod.fst).Nodup) :
    alookup (patch.foldl (fun acc kv => aset acc kv.1 kv.2) old) k =
      match alookup patch k with
      | some v => some v
      | none => alookup old k := by
  induction patch generalizing old with
  | nil => simp [alookup]
  | cons p ps ih =>
    obtain ⟨k0, v0⟩ := p
    simp only [List.map_cons, List.nodup_cons] at hnd
    obtain ⟨hk0, hnd'⟩ := hnd
    simp only [List.foldl_cons]
    rw [ih (aset old k0 v0) hnd']
    by_cases hk : k0 = k
    · subst hk
      have hnone : alookup ps k0 = none := by
        cases hh : alookup ps k0 with
        | none => rfl
        | some v => exact absurd (alookup_mem_keys hh) hk0
      simp [hnone, alookup, alookup_aset_self]
    · cases hh : alookup ps k with
      | some v => simp [hh, alookup, hk]
      | none => simp [hh, alookup, hk, alookup_aset_ne _ _ _ _ hk]

lemma countP_not_add_countP {α : Type} (p : α → Bool) (l : List α) :
    l.countP (fun a => !(p a)) + l.countP p = l.length := by
  induction l with
  | nil => simp
  | cons x xs ih =>
    by_cases h : p x = true
    · simp [List.countP_cons, h, ← ih]
      omega
    · simp only [Bool.not_eq_true] at h
      simp [List.countP_cons, h, ← ih]
      omega

lemma countP_congruent {α : Type} (p q : α → Bool) :
    ∀ l : List α, (∀ x ∈ l, p x = q x) → l.countP p = l.countP q := by
  intro l
  induction l with
  | nil => intro _; rfl
  | cons x xs ih =>
    intro h
    have hx := h x (by simp)
    have hxs := ih (fun y hy => h y (by simp [hy]))
    simp [List.countP_cons, hx, hxs]

lemma filter_congruent {α : Type} (p q : α → Bool) :
    ∀ l : List α, (∀ x ∈ l, p x = q x) → l.filter p = l.filter q := by
  intro l
  induction l with
  | nil => intro _; rfl
  | cons x xs ih =>
    intro h
    have hx := h x (by simp)
    have hxs := ih (fun y hy => h y (by simp [hy]))
    simp [List.filter_cons, hx, hxs]

lemma batchSetStep_wf (now : String) (genId : Nat → String) (i : Nat)
    (acc : BatchAcc) (r : Value) (hwf : wellFormedWithId r = true) :
    batchSetStep now genId i acc r =
      match alookup acc.data (idStrOfRecord r) with
      | some _ =>
        { acc with errors := acc.errors ++
            [⟨some (vstr (idStrOfRecord r)), ErrCode.recordExists⟩] }
      | none =>
        { data := aset acc.data (idStrOfRecord r)
            (stampNew now ((spreadToFields r).getD [])),
          results := acc.results ++
            [⟨idStrOfRecord r, stampNew now ((spreadToFields r).getD [])⟩],
          errors := acc.errors } := by
  cases r with
  | vobj f =>
    cases hid : alookup f "id" with
    | none => rw [wellFormedWithId] at hwf; simp [hid] at hwf
    | some idv =>
      cases idv with
      | vstr s =>
        rw [wellFormedWithId] at hwf
        rw [hid] at hwf
        have hvalid : validIdStr s = true := hwf
        have hsne : s ≠ "" := by
          intro hEq
          rw [hEq] at hvalid
          simp [validIdStr] at hvalid
        have hidlook : alookup (stampNew now f) "id" = some (vstr s) := by
          rw [stampNew, alookup_aset_ne _ _ _ _ (by decide),
            alookup_aset_ne _ _ _ _ (by decide), hid]
        have hwid : withId genId i (stampNew now f) = stampNew now f := by
          rw [withId, hidlook]
          simp [jsTruthy, hsne]
        have hids : idStrOfRecord (vobj f) = s := by
          rw [idStrOfRecord, hid]
        rw [batchSetStep]
        simp only [jsTruthy, isObjectType, Bool.and_self, Bool.not_true,
          Bool.false_eq_true, if_false, spreadToFields, Option.getD_some, hwid,
          hidlook, isValidId, hvalid, hids]
        cases hl : alookup acc.data s <;> simp [idStringOf, hl]
      | vnull => rw [wellFormedWithId] at hwf; simp [hid] at hwf
      | vbool b => rw [wellFormedWithId] at hwf; simp [hid] at hwf
      | vnum n => rw [wellFormedWithId] at hwf; simp [hid] at hwf
      | varr l => rw [wellFormedWithId] at hwf; simp [hid] at hwf
      | vobj g => rw [wellFormedWithId] at hwf; simp [hid] at hwf
  | vnull => simp [wellFormedWithId] at hwf
  | vbool b => simp [wellFormedWithId] at hwf
  | vnum n => simp [wellFormedWithId] at hwf
  | vstr s => simp [wellFormedWithId] at hwf
  | varr l => simp [wellFormedWithId] at hwf

lemma batchSetLoop_spec (now : String) (genId : Nat → String) :
    ∀ (records : List Value) (i : Nat) (acc : BatchAcc),
    (∀ r ∈ records, wellFormedWithId r = true) →
    (records.map idStrOfRecord).Nodup →
    ((batchSetLoop now genId i acc records).results.length =
        acc.results.length +
          records.countP (fun r => (alookup acc.data (idStrOfRecord r)).isNone)
    ∧ (batchSetLoop now genId i acc records).errors.length =
        acc.errors.length +
          records.countP (fun r => (alookup acc.data (idStrOfRecord r)).isSome)
    ∧ (∀ e ∈ (batchSetLoop now genId i acc records).errors,
          e ∈ acc.errors ∨ e.code = ErrCode.recordExists)
    ∧ (batchSetLoop now genId i acc records).data.map Prod.fst =
        acc.data.map Prod.fst ++
          ((records.filter
              (fun r => (alookup acc.data (idStrOfRecord r)).isNone)).map
            idStrOfRecord)) := by
  intro records
  induction records with
  | nil =>
    intro i acc _ _
    refine ⟨by simp [batchSetLoop], by simp [batchSetLoop], ?_, by simp [batchSetLoop]⟩
    intro e he
    exact Or.inl (by simpa [batchSetLoop] using he)
  | cons r rest ih =>
    intro i acc hwf hnd
    have hwfr : wellFormedWithId r = true := hwf r (by simp)
    have hwfrest : ∀ x ∈ rest, wellFormedWithId x = true :=
      fun x hx => hwf x (by simp [hx])
    simp only [List.map_cons, List.nodup_cons] at hnd
    obtain ⟨hnotin, hndrest⟩ := hnd
    simp only [batchSetLoop]
    rw [batchSetStep_wf now genId i acc r hwfr]
    cases hl : alookup acc.data (idStrOfRecord r) with
    | some v =>
      obtain ⟨ih1, ih2, ih3, ih4⟩ :=
        ih (i + 1)
          { acc with errors := acc.errors ++
              [⟨some (vstr (idStrOfRecord r)), ErrCode.recordExists⟩] }
          hwfrest hndrest
      refine ⟨?_, ?_, ?_, ?_⟩
      · rw [ih1]
        simp [List.countP_cons, hl]
      · rw [ih2]
        simp [List.countP_cons, hl]
        omega
      · intro e he
        rcases ih3 e he with h | h
        · rcases List.mem_append.mp h with h2 | h2
          · exact Or.inl h2
          · right
            have : e = ⟨some (vstr (idStrOfRecord r)), ErrCode.recordExists⟩ := by
              simpa using h2
            rw [this]
        · exact Or.inr h
      · rw [ih4]
        simp [List.filter_cons, hl]
    | none =>
      have hcong : ∀ x ∈ rest,
          alookup (aset acc.data (idStrOfRecord r)
              (stampNew now ((spreadToFields r).getD []))) (idStrOfRecord x) =
            alookup acc.data (idStrOfRecord x) := by
        intro x hx
        have hne : idStrOfRecord r ≠ idStrOfRecord x := by
          intro hEq
          exact hnotin (hEq ▸ List.mem_map_of_mem idStrOfRecord hx)
        exact alookup_aset_ne _ _ _ _ hne
      obtain ⟨ih1, ih2, ih3, ih4⟩ :=
        ih (i + 1)
          { data := aset acc.data (idStrOfRecord r)
              (stampNew now ((spreadToFields r).getD [])),
            results := acc.results ++
              [⟨idStrOfRecord r, stampNew now ((spreadToFields r).getD [])⟩],
            errors := acc.errors }
          hwfrest hndrest
      have hcount1 :
          rest.countP (fun x =>
            (alookup (aset acc.data (idStrOfRecord r)
              (stampNew now ((spreadToFields r).getD []))) (idStrOfRecord x)).isNone) =
          rest.countP (fun x => (alookup acc.data (idStrOfRecord x)).isNone) :=
        countP_congruent _ _ rest (fun x hx => by rw [hcong x hx])
      have hcount2 :
          rest.countP (fun x =>
            (alookup (aset acc.data (idStrOfRecord r)
              (stampNew now ((spreadToFields r).getD []))) (idStrOfRecord x)).isSome) =
          rest.countP (fun x => (alookup acc.data (idStrOfRecord x)).isSome) :=
        countP_congruent _ _ rest (fun x hx => by rw [hcong x hx])
      have hfilter :
          rest.filter (fun x =>
            (alookup (aset acc.data (idStrOfRecord r)
              (stampNew now ((spreadToFields r).getD []))) (idStrOfRecord x)).isNone) =
          rest.filter (fun x => (alookup acc.data (idStrOfRecord x)).isNone) :=
        filter_congruent _ _ rest (fun x hx => by rw [hcong x hx])
      refine ⟨?_, ?_, ?_, ?_⟩
      · rw [ih1, hcount1]
        simp [List.countP_cons, hl]
        omega
      · rw [ih2, hcount2]
        simp [List.countP_cons, hl]
      · intro e he
        exact ih3 e he
      · rw [ih4, hfilter]
        have hnew : aset acc.data (idStrOfRecord r)
            (stampNew now ((spreadToFields r).getD [])) =
            acc.data ++ [(idStrOfRecord r, stampNew now ((spreadToFields r).getD []))] :=
          aset_new_key _ _ _ hl
        rw [hnew]
        simp [List.filter_cons, hl]

/-- C5 (confirmed): a `batchSet` of N well-formed records with valid,
pairwise-distinct ids, M of which collide with ids already in the map,
produces exactly N−M successes and M per-item Conflict (`RECORD_EXISTS`)
errors, reports `total = N`, and performs a single persist of the whole
updated map at the end; no item's failure prevents a sibling from being
applied (every non-colliding id is appended to the stored map, in input
order). -/
theorem batchSet_conflict_counts (now : String) (genId : Nat → String)
    (data0 : RecordMap) (records : List Value)
    (hwf : records.all wellFormedWithId = true)
    (hnd : (records.map idStrOfRecord).Nodup) :
    (batchSet now genId data0 records).results.length =
      records.length -
        records.countP (fun r => (alookup data0 (idStrOfRecord r)).isSome)
  ∧ (batchSet now genId data0 records).errors.length =
      records.countP (fun r => (alookup data0 (idStrOfRecord r)).isSome)
  ∧ (∀ e ∈ (batchSet now genId data0 records).errors,
        e.code = ErrCode.recordExists)
  ∧ (batchSet now genId data0 records).total = records.length
  ∧ (batchSet now genId data0 records).writes =
      [(batchSetLoop now genId 0 ⟨data0, [], []⟩ records).data]
  ∧ (batchSetLoop now genId 0 ⟨data0, [], []⟩ records).data.map Prod.fst =
      data0.map Prod.fst ++
        ((records.filter
            (fun r => (alookup data0 (idStrOfRecord r)).isNone)).map
          idStrOfRecord) := by
  have hwf' : ∀ r ∈ records, wellFormedWithId r = true := by
    intro r hr
    exact List.all_eq_true.mp hwf r hr
  obtain ⟨h1, h2, h3, h4⟩ :=
    batchSetLoop_spec now genId records 0 ⟨data0, [], []⟩ hwf' hnd
  have hsum := countP_not_add_countP
    (fun r => (alookup data0 (idStrOfRecord r)).isSome) records
  have hconv : records.countP
      (fun r => !((alookup data0 (idStrOfRecord r)).isSome)) =
      records.countP (fun r => (alookup data0 (idStrOfRecord r)).isNone) :=
    countP_congruent _ _ records
      (fun x _ => by cases alookup data0 (idStrOfRecord x) <;> rfl)
  refine ⟨?_, ?_, ?_, rfl, rfl, h4⟩
  · have : (batchSet now genId data0 records).results.length =
        records.countP (fun r => (alookup data0 (idStrOfRecord r)).isNone) := by
      simpa using h1
    omega
  · simpa using h2
  · intro e he
    rcases h3 e he with h | h
    · simp at h
    · exact h

/-- Witness for `batchSet_conflict_counts`: two records with ids `u1` and
`u2` against a map already holding `u1` yield one success, one conflict,
total 2 and one write. -/
theorem batchSet_conflict_counts_witness :
    (batchSet "T1" (fun _ => "g0") [("u1", [("id", vstr "u1")])]
        [vobj [("id", vstr "u1")], vobj [("id", vstr "u2")]]).results.length = 1
  ∧ (batchSet "T1" (fun _ => "g0") [("u1", [("id", vstr "u1")])]
        [vobj [("id", vstr "u1")], vobj [("id", vstr "u2")]]).errors.length = 1
  ∧ (batchSet "T1" (fun _ => "g0") [("u1", [("id", vstr "u1")])]
        [vobj [("id", vstr "u1")], vobj [("id", vstr "u2")]]).total = 2 := by
  have h := batchSet_conflict_counts "T1" (fun _ => "g0")
    [("u1", [("id", vstr "u1")])]
    [vobj [("id", vstr "u1")], vobj [("id", vstr "u2")]]
    (by decide) (by decide)
  refine ⟨?_, ?_, ?_⟩
  · have := h.1
    simpa using this
  · have := h.2.1
    simpa using this
  · exact h.2.2.2.1

/-- C7 (confirmed): the increment and decrement operations follow the single
policy of requiring the named top-level field to pre-exist with a numeric
value: on a record lacking such a field both fail with `InvalidField` and
leave the stored map untouched; they never treat an absent field as zero. -/
theorem increment_missing_field_policy (now : String) (data : RecordMap)
    (id field : String) (value : Int) (rec : RecordFields)
    (hrec : alookup data id = some rec)
    (hfield : field ≠ "")
    (hnum : isNumField rec field = false) :
    incrementRecordField now data id field value = (.error .invalidField, data)
  ∧ decrementRecordField now data id field value = (.error .invalidField, data) := by
  unfold isNumField at hnum
  constructor
  · unfold incrementRecordField
    rw [if_neg hfield, hrec]
    cases hf : alookup rec field with
    | none => simp [hf]
    | some v =>
      cases v <;> simp [hf] <;> simp [hf] at hnum
  · unfold decrementRecordField
    rw [if_neg hfield, hrec]
    cases hf : alookup rec field with
    | none => simp [hf]
    | some v =>
      cases v <;> simp [hf] <;> simp [hf] at hnum

/-- Witness for `increment_missing_field_policy`: incrementing the absent
`score` field of `{id:"u1"}` fails with `InvalidField` and leaves the map
unchanged, for both operations. -/
theorem increment_missing_field_policy_witness :
    incrementRecordField "T1" [("u1", [("id", vstr "u1")])] "u1" "score" 5 =
      (.error .invalidField, [("u1", [("id", vstr "u1")])])
  ∧ decrementRecordField "T1" [("u1", [("id", vstr "u1")])] "u1" "score" 5 =
      (.error .invalidField, [("u1", [("id", vstr "u1")])]) :=
  increment_missing_field_policy "T1" [("u1", [("id", vstr "u1")])] "u1" "score" 5
    [("id", vstr "u1")] (by decide) (by decide) (by decide)

lemma mem_cacheAdd {cache : List String} {name n : String} :
    n ∈ cacheAdd cache name ↔ (n ∈ cache ∨ n = name) := by
  unfold cacheAdd
  by_cases h : name ∈ cache
  · rw [if_pos h]
    constructor
    · exact fun h2 => Or.inl h2
    · rintro (h2 | rfl)
      · exact h2
      · exact h
  · rw [if_neg h]
    simp [List.mem_append]

lemma findProject_updateProjects (pid : String) (f : ProjectMeta → ProjectMeta)
    (hf : ∀ q, (f q).id = q.id) :
    ∀ ps, findProject (updateProjects pid f ps) pid = (findProject ps pid).map f := by
  intro ps
  induction ps with
  | nil => rfl
  | cons p ps ih =>
    cases h : (p.id == pid) with
    | true =>
      unfold findProject updateProjects
      rw [if_pos h]
      simp only [List.find?, hf, h]
      rfl
    | false =>
      unfold findProject updateProjects
      rw [if_neg (by simp [h])]
      simp only [List.find?, hf, h]
      simpa [findProject] using ih

lemma any_filter_ne (l : List CollEntry) (name n : String) (h : n ≠ name) :
    (l.filter (fun c => !(c.name == name))).any (fun c => c.name == n) =
      l.any (fun c => c.name == n) := by
  induction l with
  | nil => rfl
  | cons c cs ih =>
    by_cases hc : c.name = name
    · have h1 : (!(c.name == name)) = false := by simp [hc]
      have h2 : (c.name == n) = false := by
        simp only [hc]
        simp
        exact fun hEq => h hEq.symm
      simp [List.filter_cons, h1, List.any_cons, h2, ih]
    · have h1 : (!(c.name == name)) = true := by simp [hc]
      simp [List.filter_cons, h1, List.any_cons, ih]

lemma any_filter_self_false (l : List CollEntry) (name : String) :
    (l.filter (fun c => !(c.name == name))).any (fun c => c.name == name) = false := by
  induction l with
  | nil => rfl
  | cons c cs ih =>
    by_cases hc : c.name = name
    · have h1 : (!(c.name == name)) = false := by simp [hc]
      simp [List.filter_cons, h1, ih]
    · have h1 : (!(c.name == name)) = true := by simp [hc]
      have h2 : (c.name == name) = false := by simp [hc]
      simp [List.filter_cons, h1, List.any_cons, h2, ih]

lemma registerCollection_ok_state (now pid name : String) (st : DBState)
    (p : ProjectMeta) (hp : findProject st.projects pid = some p) :
    (registerCollection now pid name st).1 = .ok ()
  ∧ metaHas (registerCollection now pid name st).2 pid name = true
  ∧ (∀ n, n ≠ name →
      metaHas (registerCollection now pid name st).2 pid n = metaHas st pid n)
  ∧ (registerCollection now pid name st).2.cache = st.cache
  ∧ (registerCollection now pid name st).2.files = st.files := by
  unfold registerCollection
  simp only [hp]
  by_cases hmem : p.collections.any (fun c => c.name == name) = true
  · rw [if_pos hmem]
    refine ⟨rfl, ?_, fun n _ => rfl, rfl, rfl⟩
    simpa [metaHas, hp] using hmem
  · rw [if_neg hmem]
    have hupd := findProject_updateProjects pid
      (fun q =>
        { q with
          collections := q.collections ++ [⟨name, now, now⟩],
          updatedAt := now })
      (fun q => rfl) st.projects
    refine ⟨rfl, ?_, ?_, rfl, rfl⟩
    · simp [metaHas, hupd, hp, List.any_append]
    · intro n hn
      have hne : (name == n) = false := by
        simp
        exact fun hEq => hn hEq.symm
      simp [metaHas, hupd, hp, List.any_append, hne]

lemma registerCollection_ok_inv_general (now pid name : String) (st st1 : DBState)
    (hinv : registryInv st pid)
    (hcacheEq : st1.cache = cacheAdd st.cache name)
    (hprojEq : st1.projects = st.projects) :
    ∀ (u : Unit) (st2 : DBState),
      registerCollection now pid name st1 = (.ok u, st2) → registryInv st2 pid := by
  intro u st2 hreg
  cases hp : findProject st1.projects pid with
  | none =>
    rw [registerCollection, hp] at hreg
    simp at hreg
  | some p =>
    have hro := registerCollection_ok_state now pid name st1 p hp
    rw [hreg] at hro
    obtain ⟨-, hname, hother, hcache, -⟩ := hro
    intro n
    by_cases hn : n = name
    · subst hn
      constructor
      · intro _
        exact hname
      · intro _
        show n ∈ st2.cache
        rw [hcache, hcacheEq]
        exact mem_cacheAdd.mpr (Or.inr rfl)
    · have hmetaEq : metaHas st1 pid n = metaHas st pid n := by
        unfold metaHas findProject
        rw [hprojEq]
      show n ∈ st2.cache ↔ _
      rw [hcache, hcacheEq, hother n hn, hmetaEq]
      rw [mem_cacheAdd]
      constructor
      · rintro (h2 | rfl)
        · exact (hinv n).mp h2
        · exact absurd rfl hn
      · intro h2
        exact Or.inl ((hinv n).mpr h2)

lemma ensureCollection_ok_inv (now pid name : String) (ci : Bool) (st : DBState)
    (hinv : registryInv st pid) :
    ∀ (r : Bool) (st' : DBState),
      ensureCollection now pid name ci st = (.ok r, st') → registryInv st' pid := by
  intro r st' h
  unfold ensureCollection at h
  by_cases hc : name ∈ st.cache
  · rw [if_pos hc] at h
    simp only [Prod.mk.injEq, Except.ok.injEq] at h
    obtain ⟨-, hst⟩ := h
    rw [← hst]
    exact hinv
  · rw [if_neg hc] at h
    cases hf : alookup st.files name with
    | some m =>
      simp only [hf] at h
      rcases hreg : registerCollection now pid name
          { st with cache := cacheAdd st.cache name } with ⟨res, st2⟩
      rw [hreg] at h
      cases res with
      | error e => simp at h
      | ok u =>
        simp only [Prod.mk.injEq, Except.ok.injEq] at h
        obtain ⟨-, hst⟩ := h
        rw [← hst]
        exact registerCollection_ok_inv_general now pid name st
          { st with cache := cacheAdd st.cache name } hinv rfl rfl u st2 hreg
    | none =>
      simp only [hf] at h
      cases hci : ci with
      | true =>
        rw [hci] at h
        rw [if_pos rfl] at h
        rcases hreg : registerCollection now pid name
            { st with
              files := aset st.files name [],
              cache := cacheAdd st.cache name } with ⟨res, st2⟩
        rw [hreg] at h
        cases res with
        | error e => simp at h
        | ok u =>
          simp only [Prod.mk.injEq, Except.ok.injEq] at h
          obtain ⟨-, hst⟩ := h
          rw [← hst]
          exact registerCollection_ok_inv_general now pid name st
            { st with
              files := aset st.files name [],
              cache := cacheAdd st.cache name } hinv rfl rfl u st2 hreg
      | false =>
        rw [hci] at h
        rw [if_neg (by simp)] at h
        simp at h

lemma registerCollection_cached_inv (now pid name : String) (st : DBState)
    (hinv : registryInv st pid) (hmem : name ∈ st.cache) :
    ∀ (u : Unit) (st' : DBState),
      registerCollection now pid name st = (.ok u, st') → registryInv st' pid := by
  intro u st' h
  have hmeta := (hinv name).mp hmem
  unfold metaHas at hmeta
  cases hp : findProject st.projects pid with
  | none =>
    rw [hp] at hmeta
    simp at hmeta
  | some p =>
    rw [hp] at hmeta
    unfold registerCollection at h
    simp only [hp] at h
    rw [if_pos hmeta] at h
    simp only [Prod.mk.injEq, Except.ok.injEq] at h
    obtain ⟨-, hst⟩ := h
    rw [← hst]
    exact hinv

lemma deleteCollection_ok_inv (now pid name : String) (st : DBState)
    (hinv : registryInv st pid) :
    ∀ st', deleteCollection now pid name st = (.ok (), st') → registryInv st' pid := by
  intro st' h
  unfold deleteCollection at h
  rcases hens : ensureCollection now pid name false st with ⟨rens, st1⟩
  rw [hens] at h
  cases rens with
  | error e => simp at h
  | ok b =>
    have hinv1 : registryInv st1 pid :=
      ensureCollection_ok_inv now pid name false st hinv b st1 hens
    cases hp : findProject st1.projects pid with
    | some p =>
      have hp2 : findProject
          ({ st1 with
             files := aset st1.files name [],
             cache := st1.cache.filter (fun c => !(c == name)) } :
            DBState).projects pid = some p := hp
      simp only [hp2, Prod.mk.injEq, true_and] at h
      have hcache : st'.cache = st1.cache.filter (fun c => !(c == name)) := by
        rw [← h]
      have hproj : st'.projects = updateProjects pid
          (fun q =>
            { q with
              collections := (q.collections.filter (fun c => !(c.name == name))),
              updatedAt := now }) st1.projects := by
        rw [← h]
      have hupd := findProject_updateProjects pid
        (fun q =>
          { q with
            collections := (q.collections.filter (fun c => !(c.name == name))),
            updatedAt := now })
        (fun q => rfl) st1.projects
      have hfind : findProject st'.projects pid =
          some { p with
            collections := (p.collections.filter (fun c => !(c.name == name))),
            updatedAt := now } := by
        rw [hproj, hupd, hp]
        rfl
      have hmeta' : ∀ n, metaHas st' pid n =
          (p.collections.filter (fun c => !(c.name == name))).any
            (fun c => c.name == n) := by
        intro n
        unfold metaHas
        rw [hfind]
      have hmeta1 : ∀ n, metaHas st1 pid n =
          p.collections.any (fun c => c.name == n) := by
        intro n
        unfold metaHas
        rw [hp]
      intro n
      rw [hcache, hmeta' n]
      by_cases hn : n = name
      · subst hn
        rw [any_filter_self_false]
        constructor
        · intro hmem
          have := (List.mem_filter.mp hmem).2
          simp at this
        · intro hmeta
          exact absurd hmeta (by simp)
      · rw [any_filter_ne p.collections name n hn, ← hmeta1 n]
        constructor
        · intro hmem
          exact (hinv1 n).mp (List.mem_filter.mp hmem).1
        · intro hmeta
          exact List.mem_filter.mpr ⟨(hinv1 n).mpr hmeta, by simp [hn]⟩
    | none =>
      have hp2 : findProject
          ({ st1 with
             files := aset st1.files name [],
             cache := st1.cache.filter (fun c => !(c == name)) } :
            DBState).projects pid = none := hp
      simp only [hp2, Prod.mk.injEq, true_and] at h
      have hcache : st'.cache = st1.cache.filter (fun c => !(c == name)) := by
        rw [← h]
      have hproj : st'.projects = st1.projects := by
        rw [← h]
      have hmeta' : ∀ n, metaHas st' pid n = false := by
        intro n
        unfold metaHas
        rw [hproj, hp]
      intro n
      rw [hcache, hmeta' n]
      constructor
      · intro hmem
        have h2 := (hinv1 n).mp (List.mem_filter.mp hmem).1
        unfold metaHas at h2
        rw [hp] at h2
        simp at h2
      · intro hmeta
        exact absurd hmeta (by simp)

lemma deleteCollection_ok_removes (now pid name : String) (st : DBState) :
    ∀ st', deleteCollection now pid name st = (.ok (), st') →
      name ∉ st'.cache ∧ metaHas st' pid name = false := by
  intro st' h
  unfold deleteCollection at h
  rcases hens : ensureCollection now pid name false st with ⟨rens, st1⟩
  rw [hens] at h
  cases rens with
  | error e => simp at h
  | ok b =>
    cases hp : findProject st1.projects pid with
    | some p =>
      have hp2 : findProject
          ({ st1 with
             files := aset st1.files name [],
             cache := st1.cache.filter (fun c => !(c == name)) } :
            DBState).projects pid = some p := hp
      simp only [hp2, Prod.mk.injEq, true_and] at h
      have hcache : st'.cache = st1.cache.filter (fun c => !(c == name)) := by
        rw [← h]
      have hproj : st'.projects = updateProjects pid
          (fun q =>
            { q with
              collections := (q.collections.filter (fun c => !(c.name == name))),
              updatedAt := now }) st1.projects := by
        rw [← h]
      have hupd := findProject_updateProjects pid
        (fun q =>
          { q with
            collections := (q.collections.filter (fun c => !(c.name == name))),
            updatedAt := now })
        (fun q => rfl) st1.projects
      have hfind : findProject st'.projects pid =
          some { p with
            collections := (p.collections.filter (fun c => !(c.name == name))),
            updatedAt := now } := by
        rw [hproj, hupd, hp]
        rfl
      constructor
      · rw [hcache]
        intro hmem
        have := (List.mem_filter.mp hmem).2
        simp at this
      · unfold metaHas
        rw [hfind]
        exact any_filter_self_false p.collections name
    | none =>
      have hp2 : findProject
          ({ st1 with
             files := aset st1.files name [],
             cache := st1.cache.filter (fun c => !(c == name)) } :
            DBState).projects pid = none := hp
      simp only [hp2, Prod.mk.injEq, true_and] at h
      have hcache : st'.cache = st1.cache.filter (fun c => !(c == name)) := by
        rw [← h]
      have hproj : st'.projects = st1.projects := by
        rw [← h]
      constructor
      · rw [hcache]
        intro hmem
        have := (List.mem_filter.mp hmem).2
        simp at this
      · unfold metaHas
        rw [hproj, hp]

lemma mergedRecordOf_lookup_other (now ids : String) (old patch : RecordFields)
    (k : String) (hnd : (patch.map Prod.fst).Nodup)
    (h1 : k ≠ "id") (h2 : k ≠ "updatedAt") (h3 : k ≠ "createdAt") :
    alookup (mergedRecordOf now ids old patch) k =
      match alookup patch k with
      | some v => some v
      | none => alookup old k := by
  simp only [mergedRecordOf]
  rw [alookup_aset_ne _ _ _ _ (Ne.symm h3), alookup_aset_ne _ _ _ _ (Ne.symm h2),
    alookup_aset_ne _ _ _ _ (Ne.symm h1)]
  exact foldl_aset_alookup patch old k hnd

lemma mergedRecordOf_lookup_id (now ids : String) (old patch : RecordFields) :
    alookup (mergedRecordOf now ids old patch) "id" = some (vstr ids) := by
  simp only [mergedRecordOf]
  rw [alookup_aset_ne _ _ _ _ (by decide), alookup_aset_ne _ _ _ _ (by decide),
    alookup_aset_self]

lemma mergedRecordOf_lookup_updatedAt (now ids : String) (old patch : RecordFields) :
    alookup (mergedRecordOf now ids old patch) "updatedAt" = some (vstr now) := by
  simp only [mergedRecordOf]
  rw [alookup_aset_ne _ _ _ _ (by decide), alookup_aset_self]

lemma mergedRecordOf_lookup_createdAt (now ids : String) (old patch : RecordFields)
    (c : Value) (hc : alookup old "createdAt" = some c) (ht : jsTruthy c = true) :
    alookup (mergedRecordOf now ids old patch) "createdAt" = some c := by
  simp only [mergedRecordOf]
  rw [alookup_aset_self, hc]
  simp [ht]

/-- C8 (amended): a `batchUpdate` item whose id is well formed and present
and whose patch is an object replaces the stored record by the shallow
top-level merge of the old record with the patch — patch keys other than
`id`, `updatedAt` and `createdAt` overwrite, unmentioned keys persist,
`updatedAt` is freshly stamped, the original (truthy) `createdAt` is
preserved, and the `id` field is forced back to the item's id even if the
patch supplies a different one; an item with a well-formed id absent from
the collection yields a per-item `NotFound` error, an item whose patch is
missing or not of object type yields a per-item validation error, and in
both error cases the map is unchanged. -/
theorem batchUpdate_item_semantics (now : String) (data : RecordMap) :
    (∀ (uf patch : RecordFields) (s : String) (old : RecordFields),
        alookup uf "id" = some (vstr s) → validIdStr s = true →
        alookup data s = some old →
        alookup uf "data" = some (vobj patch) →
        (patch.map Prod.fst).Nodup →
        (batchUpdateStep now data (vobj uf) =
            (aset data s (mergedRecordOf now s old patch),
             some ⟨s, mergedRecordOf now s old patch⟩, none)
         ∧ (∀ k, k ≠ "id" → k ≠ "updatedAt" → k ≠ "createdAt" →
              alookup (mergedRecordOf now s old patch) k =
                match alookup patch k with
                | some v => some v
                | none => alookup old k)
         ∧ alookup (mergedRecordOf now s old patch) "id" = some (vstr s)
         ∧ alookup (mergedRecordOf now s old patch) "updatedAt" = some (vstr now)
         ∧ (∀ c, alookup old "createdAt" = some c → jsTruthy c = true →
              alookup (mergedRecordOf now s old patch) "createdAt" = some c)))
  ∧ (∀ (uf : RecordFields) (s : String),
        alookup uf "id" = some (vstr s) → validIdStr s = true →
        alookup data s = none →
        batchUpdateStep now data (vobj uf) =
          (data, none, some ⟨some (vstr s), ErrCode.recordNotFound⟩))
  ∧ (∀ (uf : RecordFields) (s : String) (old : RecordFields) (u : Value),
        alookup uf "id" = some (vstr s) → validIdStr s = true →
        alookup data s = some old →
        alookup uf "data" = some u →
        (jsTruthy u && isObjectType u) = false →
        batchUpdateStep now data (vobj uf) =
          (data, none, some ⟨some (vstr s), ErrCode.invalidRequestBody⟩))
  ∧ (∀ (uf : RecordFields) (s : String) (old : RecordFields),
        alookup uf "id" = some (vstr s) → validIdStr s = true →
        alookup data s = some old →
        alookup uf "data" = none →
        batchUpdateStep now data (vobj uf) =
          (data, none, some ⟨some (vstr s), ErrCode.invalidRequestBody⟩)) := by
  refine ⟨?_, ?_, ?_, ?_⟩
  · intro uf patch s old hid hv hold hupd hnd
    refine ⟨?_, fun k h1 h2 h3 => mergedRecordOf_lookup_other now s old patch k hnd h1 h2 h3,
      mergedRecordOf_lookup_id now s old patch,
      mergedRecordOf_lookup_updatedAt now s old patch,
      fun c hc ht => mergedRecordOf_lookup_createdAt now s old patch c hc ht⟩
    simp only [batchUpdateStep, hid, hupd, Option.getD_some, isValidId, hv,
      Bool.not_true, Bool.false_eq_true, if_false, idStringOf, hold, jsTruthy,
      isObjectType, Bool.and_self, if_true, spreadToFields]
  · intro uf s hid hv hnone
    simp only [batchUpdateStep, hid, Option.getD_some, isValidId, hv,
      Bool.not_true, Bool.false_eq_true, if_false, idStringOf, hnone]
  · intro uf s old u hid hv hold hupd hshape
    simp only [batchUpdateStep, hid, hupd, Option.getD_some, isValidId, hv,
      Bool.not_true, Bool.false_eq_true, if_false, idStringOf, hold, hshape]
  · intro uf s old hid hv hold hupd
    simp only [batchUpdateStep, hid, hupd, Option.getD_some, isValidId, hv,
      Bool.not_true, Bool.false_eq_true, if_false, idStringOf, hold]

/-- Witness for `batchUpdate_item_semantics`: patching `{b:2}` into the
record `u1` produces the merged record and no error. -/
theorem batchUpdate_item_semantics_witness :
    batchUpdateStep "T1" [("u1", c8old)]
        (vobj [("id", vstr "u1"), ("data", vobj [("b", vnum 2)])]) =
      (aset [("u1", c8old)] "u1" (mergedRecordOf "T1" "u1" c8old [("b", vnum 2)]),
       some ⟨"u1", mergedRecordOf "T1" "u1" c8old [("b", vnum 2)]⟩, none) :=
  ((batchUpdate_item_semantics "T1" [("u1", c8old)]).1
    [("id", vstr "u1"), ("data", vobj [("b", vnum 2)])] [("b", vnum 2)] "u1" c8old
    (by decide) (by decide) (by decide) (by decide) (by decide)).1

/-- C8 (counterexample): when the patch supplies `id:"zzz"` for the item
addressed as `u1`, the claimed merge (patch keys overwrite) would store
`id:"zzz"`, but the code resets the `id` field to the item's id `u1`. -/
theorem batchUpdate_id_overwrite_counterexample :
    (match alookup (batchUpdateStep "T1" [("u1", c8old)]
        (vobj [("id", vstr "u1"), ("data", vobj [("id", vstr "zzz")])])).1 "u1" with
     | some r => alookup r "id"
     | none => none) = some (vstr "u1")
  ∧ alookup (specShallowMerge "T1" c8old [("id", vstr "zzz")]) "id" =
      some (vstr "zzz")
  ∧ vstr "u1" ≠ vstr "zzz" := by
  refine ⟨by decide, by decide, by decide⟩

/-- C2 (amended): the read pipeline applies filter, then field projection,
then sort, then the offset/limit slice — sorting still precedes slicing, but
projection precedes sorting, so sorting happens on projected records; when no
field projection is requested the pipeline coincides with the claimed
filter → sort → slice → project order. -/
theorem getCollectionRecords_stage_order :
    (∀ (rtest : String → String → Bool) (data : RecordMap)
        (qfilter : Option (List (String × Value))) (qfields qsort : Option String)
        (off lim : Option Nat),
        getCollectionRecords rtest data qfilter qfields qsort off lim =
          paginate off lim (sortStage qsort (projectStage qfields
            (filterStage rtest qfilter (data.map Prod.snd)))))
  ∧ (∀ (rtest : String → String → Bool) (data : RecordMap)
        (qfilter : Option (List (String × Value))) (qsort : Option String)
        (off lim : Option Nat),
        getCollectionRecords rtest data qfilter none qsort off lim =
          specOrderPipeline rtest data qfilter none qsort off lim) := by
  exact ⟨fun _ _ _ _ _ _ _ => rfl, fun _ _ _ _ _ _ => rfl⟩

/-- C2 (counterexample): with projection to `b` and sort on `a`, the code
pipeline projects first — the sort key is gone, every comparison ties, and
the page keeps insertion order — while the claimed filter → sort → slice →
project order reorders by `a` before projecting; the two outputs differ. -/
theorem getCollectionRecords_order_counterexample :
    getCollectionRecords rtFalse cexData none (some "b") (some "a:asc") none none =
      [[("b", vnum 1)], [("b", vnum 2)]]
  ∧ specOrderPipeline rtFalse cexData none (some "b") (some "a:asc") none none =
      [[("b", vnum 2)], [("b", vnum 1)]]
  ∧ getCollectionRecords rtFalse cexData none (some "b") (some "a:asc") none none ≠
      specOrderPipeline rtFalse cexData none (some "b") (some "a:asc") none none := by
  refine ⟨by decide, by decide, by decide⟩

/-- C3 (code bug): searching "bob" with no field restriction over a
collection holding `{name:"Bob Smith"}` and `{email:"bob@x.com"}` returns
only the first record: the searched field list is taken from the first
record's keys, so the second record's `email` field is never examined even
though its lowercase value does contain the term (and an explicit
`fields=name,email` restriction finds both records). -/
theorem searchStage_first_record_keys_bug :
    searchStage bobData "bob" none = [[("name", vstr "Bob Smith")]]
  ∧ strIncludes (lowerStr "bob@x.com") (lowerStr "bob") = true
  ∧ searchStage bobData "bob" (some "name,email") =
      [[("name", vstr "Bob Smith")], [("email", vstr "bob@x.com")]] := by
  refine ⟨by decide, by decide, by decide⟩

lemma registerCollection_ok_of_found (now pid name : String) (st : DBState)
    (p : ProjectMeta) (hp : findProject st.projects pid = some p) :
    ∃ st2, registerCollection now pid name st = (.ok (), st2) := by
  unfold registerCollection
  simp only [hp]
  by_cases hmem : p.collections.any (fun c => c.name == name) = true
  · rw [if_pos hmem]
    exact ⟨st, rfl⟩
  · rw [if_neg hmem]
    exact ⟨_, rfl⟩

lemma ensureCollection_create_ok (now pid name : String) (st : DBState)
    (p : ProjectMeta) (hp : findProject st.projects pid = some p) :
    ∃ st1, ensureCollection now pid name true st = (.ok true, st1) := by
  unfold ensureCollection
  by_cases hc : name ∈ st.cache
  · rw [if_pos hc]
    exact ⟨st, rfl⟩
  · rw [if_neg hc]
    cases hf : alookup st.files name with
    | some m =>
      obtain ⟨st2, hreg⟩ := registerCollection_ok_of_found now pid name
        { st with cache := cacheAdd st.cache name } p hp
      simp only [hreg]
      exact ⟨st2, rfl⟩
    | none =>
      rw [if_pos rfl]
      obtain ⟨st2, hreg⟩ := registerCollection_ok_of_found now pid name
        { st with
          files := aset st.files name [],
          cache := cacheAdd st.cache name } p hp
      simp only [hreg]
      exact ⟨st2, rfl⟩

/-- C9 (amended): after a registration-affecting operation that SUCCEEDS,
cache membership and persisted metadata membership agree (given they agreed
before): `ensureCollection` (either flag), `registerCollection` from its
call-site precondition that the name is already cached, and
`deleteCollection` all preserve the lockstep invariant on success; in
particular a successful deletion removes the name from both the cache and
the persisted metadata.  A FAILED operation can instead leave the name in
the cache with no metadata entry (see the counterexample). -/
theorem registry_lockstep_on_success :
    (∀ (now pid name : String) (ci : Bool) (st : DBState) (r : Bool) (st' : DBState),
        registryInv st pid →
        ensureCollection now pid name ci st = (.ok r, st') → registryInv st' pid)
  ∧ (∀ (now pid name : String) (st : DBState) (u : Unit) (st' : DBState),
        registryInv st pid → name ∈ st.cache →
        registerCollection now pid name st = (.ok u, st') → registryInv st' pid)
  ∧ (∀ (now pid name : String) (st st' : DBState),
        registryInv st pid →
        deleteCollection now pid name st = (.ok (), st') → registryInv st' pid)
  ∧ (∀ (now pid name : String) (st st' : DBState),
        deleteCollection now pid name st = (.ok (), st') →
        name ∉ st'.cache ∧ metaHas st' pid name = false) :=
  ⟨fun now pid name ci st r st' hinv h =>
      ensureCollection_ok_inv now pid name ci st hinv r st' h,
   fun now pid name st u st' hinv hmem h =>
      registerCollection_cached_inv now pid name st hinv hmem u st' h,
   fun now pid name st st' hinv h =>
      deleteCollection_ok_inv now pid name st hinv st' h,
   fun now pid name st st' h =>
      deleteCollection_ok_removes now pid name st st' h⟩

/-- C9 (counterexample): from the consistent state `c9State`, ensuring the
collection `c1` finds the container on disk, adds the name to the cache, and
then fails because the project is missing from the metadata store — the
operation completes with an error, the name stays cached, and the lockstep
equivalence the claim asserts for failed operations is broken. -/
theorem registry_divergence_counterexample :
    registryInv c9State "p1"
  ∧ (ensureCollection "T1" "p1" "c1" false c9State).1 = .error .fileSystemError
  ∧ "c1" ∈ (ensureCollection "T1" "p1" "c1" false c9State).2.cache
  ∧ ¬ registryInv (ensureCollection "T1" "p1" "c1" false c9State).2 "p1" := by
  refine ⟨?_, by rfl, by decide, ?_⟩
  · intro n
    constructor
    · intro hmem
      simp [c9State] at hmem
    · intro hmeta
      simp [metaHas, findProject, c9State] at hmeta
  · intro hInv
    have hcontra := (hInv "c1").mp (by decide)
    exact absurd hcontra (by decide)

/-- Witness for `registry_lockstep_on_success`: creating collection `c`
under the registered project `p1` from the consistent `cleanState` preserves
the lockstep invariant, and deleting `c` from a state that holds it in both
cache and metadata removes it from both. -/
theorem registry_lockstep_on_success_witness :
    registryInv
      (⟨[("c", [])], ["c"], [⟨"p1", [⟨"c", "T1", "T1"⟩], "T1"⟩]⟩ : DBState)
      "p1"
  ∧ ("c" ∉ (deleteCollection "T1" "p1" "c"
        (⟨[("c", [])], ["c"], [⟨"p1", [⟨"c", "T0", "T0"⟩], "T0"⟩]⟩ : DBState)).2.cache
     ∧ metaHas (deleteCollection "T1" "p1" "c"
        (⟨[("c", [])], ["c"], [⟨"p1", [⟨"c", "T0", "T0"⟩], "T0"⟩]⟩ : DBState)).2
        "p1" "c" = false) :=
  ⟨registry_lockstep_on_success.1 "T1" "p1" "c" true cleanState true
    (⟨[("c", [])], ["c"], [⟨"p1", [⟨"c", "T1", "T1"⟩], "T1"⟩]⟩ : DBState)
    (by
      intro n
      constructor
      · intro hmem
        simp [cleanState] at hmem
      · intro hmeta
        simp [metaHas, findProject, cleanState] at hmeta)
    (by rfl),
   registry_lockstep_on_success.2.2.2 "T1" "p1" "c"
    (⟨[("c", [])], ["c"], [⟨"p1", [⟨"c", "T0", "T0"⟩], "T0"⟩]⟩ : DBState)
    (deleteCollection "T1" "p1" "c"
      (⟨[("c", [])], ["c"], [⟨"p1", [⟨"c", "T0", "T0"⟩], "T0"⟩]⟩ : DBState)).2
    (by rfl)⟩

/-- C6 (amended): a create request whose body carries a truthy id violating
the charset fails with `InvalidIdFormat` and writes no record, but the
rejection happens only AFTER the ensure-collection step: the failed call's
final state is exactly the post-ensure state, in which the collection
container and the project's registry metadata may already have been
created/updated. -/
theorem createCollection_invalid_id_rejection (now genId pid name : String)
    (bf : RecordFields) (s : String) (st : DBState) (p : ProjectMeta)
    (hp : findProject st.projects pid = some p)
    (hid : alookup bf "id" = some (vstr s))
    (hs : s ≠ "")
    (hbad : validIdStr s = false) :
    (createCollection now genId pid name (vobj bf) st).1 = .error .invalidIdFormat
  ∧ (createCollection now genId pid name (vobj bf) st).2 =
      (ensureCollection now pid name true st).2 := by
  obtain ⟨st1, hens⟩ := ensureCollection_create_ok now pid name st p hp
  have hrl : alookup (stampNew now bf) "id" = some (vstr s) := by
    rw [stampNew, alookup_aset_ne _ _ _ _ (by decide),
      alookup_aset_ne _ _ _ _ (by decide), hid]
  have hwid : withId (fun _ => genId) 0 (stampNew now bf) = stampNew now bf := by
    rw [withId, hrl]
    simp [jsTruthy, hs]
  unfold createCollection
  simp only [jsTruthy, isObjectType, Bool.and_self, Bool.not_true,
    Bool.false_eq_true, if_false, hens, spreadToFields, Option.getD_some,
    hwid, hrl, isValidId, hbad, Bool.not_false, if_true]
  exact ⟨by trivial, by trivial⟩

/-- Witness for `createCollection_invalid_id_rejection`: creating a record
with id "bad id" from `cleanState` fails with `InvalidIdFormat` while
leaving exactly the ensure step's state. -/
theorem createCollection_invalid_id_rejection_witness :
    (createCollection "T1" "gen" "p1" "users"
        (vobj [("id", vstr "bad id")]) cleanState).1 = .error .invalidIdFormat
  ∧ (createCollection "T1" "gen" "p1" "users"
        (vobj [("id", vstr "bad id")]) cleanState).2 =
      (ensureCollection "T1" "p1" "users" true cleanState).2 :=
  createCollection_invalid_id_rejection "T1" "gen" "p1" "users"
    [("id", vstr "bad id")] "bad id" cleanState ⟨"p1", [], "T0"⟩
    (by decide) (by decide) (by decide) (by decide)

/-- C6 (counterexample): the same failed create from `cleanState` has
already created the `users` container on disk, added it to the cache and
appended it to the project's metadata before rejecting the id — the claim
that the failed call changes no persisted state is false. -/
theorem createCollection_invalid_id_counterexample :
    (createCollection "T1" "gen" "p1" "users"
        (vobj [("id", vstr "bad id")]) cleanState).1 = .error .invalidIdFormat
  ∧ (createCollection "T1" "gen" "p1" "users"
        (vobj [("id", vstr "bad id")]) cleanState).2.files = [("users", [])]
  ∧ (createCollection "T1" "gen" "p1" "users"
        (vobj [("id", vstr "bad id")]) cleanState).2.cache = ["users"]
  ∧ metaHas (createCollection "T1" "gen" "p1" "users"
        (vobj [("id", vstr "bad id")]) cleanState).2 "p1" "users" = true
  ∧ cleanState.files = []
  ∧ metaHas cleanState "p1" "users" = false := by
  refine ⟨by rfl, by decide, by decide, by decide, by decide, by decide⟩

end LiekoDB
